import Mathlib

/-!
Verification of the Timeship storage-access layer.

This file gives a shallow embedding, in Lean 4, of the path handling, the
rooted-gateway operations, the ZFS snapshot engine and the HTTP handlers of
the Timeship server (Go source under `api/internal`), together with theorems
settling the specification claims about them.

Modelling conventions:
* Absolute filesystem paths are lists of path segments; the list `[]` stands
  for the filesystem root `/`, and `filepath.Dir` is `List.dropLast`.
* The filesystem is a finite association list from absolute paths to entries
  (`Entry.file content mtime` or `Entry.dir mtime`); `os.Stat` is a lookup,
  `os.ReadDir` lists the immediate children sorted by name (as the Go
  function does) and fails on anything that is not a directory.
* Relative path strings coming from URLs are kept as `String` and are split
  on `/` exactly where the Go code hands them to `strings`/`path/filepath`
  functions; machine integers (`int64`) are modelled as `Int`.
* Functions that can fail return `Except String` (the message mirroring the
  Go error), and a Go panic is modelled as `Option.none`.
-/

namespace Timeship

/-- A filesystem entry: a regular file with content bytes and modification
time, or a directory with modification time. -/
inductive Entry where
  | file (content : List Nat) (mtime : Int)
  | dir (mtime : Int)
deriving DecidableEq, Repr

/-- The filesystem: a finite map from absolute paths (segment lists) to
entries.  This is the state the Go code reads through `os.Stat`,
`os.ReadDir`, `os.OpenRoot` and `(*os.Root).Open`. -/
structure FS where
  entries : List (List String × Entry)
deriving DecidableEq, Repr

/-- Model of `os.Stat`: look up an absolute path. -/
def FS.stat (fs : FS) (p : List String) : Option Entry :=
  (fs.entries.find? (fun e => decide (e.1 = p))).map (·.2)

/-- Whether `p` names an existing directory (`err == nil && stat.IsDir()`). -/
def FS.isDirAt (fs : FS) (p : List String) : Bool :=
  match fs.stat p with
  | some (Entry.dir _) => true
  | _ => false

/-- Lexicographic `<` on character lists.  Go compares strings byte-wise on
their UTF-8 encoding, which orders exactly like the code points compared
here. -/
def charListLt : List Char → List Char → Bool
  | _, [] => false
  | [], _ :: _ => true
  | c :: cs, d :: ds => if c = d then charListLt cs ds else decide (c < d)

/-- Go's `<` on strings. -/
def goStringLt (a b : String) : Bool :=
  charListLt a.data b.data

/-- Go's `<=` on strings. -/
def goStringLe (a b : String) : Bool :=
  ! goStringLt b a

/-- Insertion sort for strings, ascending; used to model the name-sorted
output of `os.ReadDir`. -/
def insertString (x : String) : List String → List String
  | [] => [x]
  | y :: ys => if goStringLe x y then x :: y :: ys else y :: insertString x ys

/-- Sort a list of strings ascending (insertion sort). -/
def sortStrings : List String → List String
  | [] => []
  | x :: xs => insertString x (sortStrings xs)

/-- The names of the immediate children of `p` present in the filesystem, in
storage order (the raw directory order seen by `(*os.File).Readdir`). -/
def FS.childNamesRaw (fs : FS) (p : List String) : List String :=
  (fs.entries.filterMap (fun e =>
    if e.1 ≠ [] ∧ e.1.dropLast = p then e.1.getLast? else none)).dedup

/-- Model of `os.ReadDir`: children of a directory, sorted by filename; fails when
`p` is not an existing directory (in particular on the empty path `""`). -/
def FS.readDir (fs : FS) (p : List String) : Except String (List String) :=
  match fs.stat p with
  | some (Entry.dir _) => Except.ok (sortStrings (fs.childNamesRaw p))
  | _ => Except.error "no such file or directory"

/-- The modification time of an entry (`FileInfo.ModTime().Unix()`). -/
def Entry.mtime : Entry → Int
  | Entry.file _ m => m
  | Entry.dir m => m

/-- The size of an entry (`FileInfo.Size()`); directories report 0 here. -/
def Entry.size : Entry → Int
  | Entry.file c _ => (c.length : Int)
  | Entry.dir _ => 0

/-- Whether the entry is a directory (`FileInfo.IsDir()`). -/
def Entry.isDir : Entry → Bool
  | Entry.file _ _ => false
  | Entry.dir _ => true

/-! ## String primitives

Computable (structurally recursive) counterparts of the Go `strings`
functions the code uses: splitting on a one-character separator, joining
with a separator, and prefix/suffix character tests.  They act on the
character list underlying a `String`. -/

/-- Model of `strings.Split` on a one-character separator, on character lists;
splitting the empty list yields one empty field, as in Go. -/
def splitChar (sep : Char) : List Char → List (List Char)
  | [] => [[]]
  | d :: ds =>
    match splitChar sep ds with
    | r :: rs => if d = sep then [] :: r :: rs else (d :: r) :: rs
    | [] => [[]]

/-- Model of `strings.Split(s, sep)` for the one-character separators used by the
code (`/` and `:`). -/
def goSplit (s : String) (sep : Char) : List String :=
  (splitChar sep s.data).map (fun cs => String.mk cs)

/-- Model of `strings.Join(l, sep)`. -/
def joinSep (sep : String) : List String → String
  | [] => ""
  | [x] => x
  | x :: y :: rest => x ++ sep ++ joinSep sep (y :: rest)

/-- Whether a path string begins with `/` (`strings.HasPrefix(p, "/")`,
Go's Unix `filepath.IsAbs`). -/
def startsWithSlash (s : String) : Bool :=
  match s.data with
  | [] => false
  | c :: _ => c = '/'

/-- Whether a path string ends with `/`. -/
def endsWithSlash (s : String) : Bool :=
  match s.data.getLast? with
  | some c => c = '/'
  | none => false

/-! ## Go `path`/`path/filepath` string functions (Unix rules)

`filepath.Clean` processes the `/`-separated segments of a path: empty and
`.` segments are dropped, `..` pops the previous kept segment except that it
is dropped at the root of a rooted path and kept at the front of a relative
path.  `cleanSegs` is that segment transformation; `clean` reassembles the
string exactly as `filepath.Clean` does. -/

/-- One segment step of `filepath.Clean`: skip empty and `.` segments, let
`..` pop the previous kept segment (except at the root of a rooted path,
where it is dropped, and at the front of a relative path, where it is
kept), and append any other segment. -/
def cleanStep (rooted : Bool) (out : List String) (c : String) : List String :=
  if c = "" ∨ c = "." then out
  else if c = ".." then
    if rooted then out.dropLast
    else
      match out.getLast? with
      | some l => if l = ".." then out ++ [".."] else out.dropLast
      | none => [".."]
  else out ++ [c]

/-- The segment-level core of `filepath.Clean`. -/
def cleanSegs (rooted : Bool) (comps : List String) : List String :=
  comps.foldl (cleanStep rooted) []

/-- Model of `filepath.Clean` (Unix). -/
def clean (p : String) : String :=
  if p = "" then "."
  else
    let rooted := startsWithSlash p
    let out := cleanSegs rooted (goSplit p '/')
    if rooted then
      if out = [] then "/" else "/" ++ joinSep "/" out
    else
      if out = [] then "." else joinSep "/" out

/-- Whether some segment of `p` is `"."` or `".."` (the `hasDots` scan of
Go's `filepath.IsLocal`). -/
def hasDotSeg (p : String) : Bool :=
  (goSplit p '/').any (fun c => c = "." ∨ c = "..")

/-- Model of `filepath.IsLocal` (Unix).  Go rejects absolute and empty paths and then,
for a path with dot segments, tests `q == ".." || strings.HasPrefix(q, "../")`
on `q := Clean(path)`.  Since `q` is the `/`-intercalation of
`cleanSegs false _` — whose elements are nonempty and `/`-free — that string
test holds exactly when the first cleaned segment is `".."`, which is how it
is written here. -/
def isLocal (p : String) : Bool :=
  if startsWithSlash p ∨ p = "" then false
  else if hasDotSeg p then
    match (cleanSegs false (goSplit p '/')).head? with
    | some l => l ≠ ".."
    | none => true
  else true

/-- The segments a cleaned local relative path contributes below a root:
`.` contributes nothing, otherwise its `/`-separated segments (this is how
`(*os.Root).Open` resolves the cleaned paths produced by `urlToRelPath`). -/
def relSegs (rel : String) : List String :=
  if rel = "." then [] else goSplit rel '/'

/-! ## `local.go`: the rooted local-filesystem adapter -/

/-- Model of `Adapter.urlToRelPath`: check the URL scheme, replace the empty path by
`"."`, refuse non-local paths (`filepath.IsLocal`), and return the cleaned
relative path. -/
def urlToRelPath (scheme p : String) : Except String String :=
  if scheme ≠ "local" then Except.error ("unexpected adapter scheme: " ++ scheme)
  else
    let path := if p = "" then "." else p
    if ¬ isLocal path then Except.error ("non-local paths are not supported: " ++ path)
    else Except.ok (clean path)

/-- Model of `(*os.Root).Open`/`(*os.Root).Stat` for the cleaned local relative paths
produced by `urlToRelPath`: resolve `rel` beneath the root `base` and return
the absolute path reached together with its entry. -/
def rootOpen (fs : FS) (base : List String) (rel : String) :
    Except String (List String × Entry) :=
  let abs := base ++ relSegs rel
  match fs.stat abs with
  | some e => Except.ok (abs, e)
  | none => Except.error ("open " ++ rel ++ ": no such file or directory")

/-! ## `zfs.go`: the ZFS snapshot engine -/

/-- The sidecar suffix `.zfs/snapshot`. -/
def zfsSidecar : List String := [".zfs", "snapshot"]

/-- The upward walk of `ZFS.findSnapshotRoot`, written on the reversed
segment list of the current absolute path so that moving to the parent
(`filepath.Dir`, i.e. `List.dropLast`) is a structural step.  At each level
it tests whether `<level>/.zfs/snapshot` is a directory and returns that
sidecar directory on the first hit; the Go loop stops only when
`filepath.Dir(cur) == cur`, i.e. at the filesystem root `/` (the empty
segment list), and the root itself is tested before stopping. -/
def findSnapshotRootFromRev (fs : FS) (rev : List String) : Option (List String) :=
  let cur := rev.reverse
  if fs.isDirAt (cur ++ zfsSidecar) then some (cur ++ zfsSidecar)
  else
    match rev with
    | [] => none
    | _ :: rest => findSnapshotRootFromRev fs rest

/-- Model of `ZFS.findSnapshotRoot` starting from an absolute path `cur`. -/
def findSnapshotRootFrom (fs : FS) (cur : List String) : Option (List String) :=
  findSnapshotRootFromRev fs cur.reverse

/-- Model of `ZFS.findSnapshotRoot`: join the storage root with the relative path and
walk upward; `none` models the `""` result for "not found" (the Go function
never returns a non-nil error). -/
def zfsFindSnapshotRoot (fs : FS) (rootDir : List String) (relPath : String) :
    Option (List String) :=
  findSnapshotRootFrom fs (rootDir ++ relSegs relPath)

/-- Model of `ZFS.getSnapshotPath`: split the id as `strings.SplitN(id, ":", 2)` and
require the first part to be `"zfs"`; the remainder (which may itself
contain `:`) is the snapshot name. -/
def getSnapshotPath (snapshotID : String) : Except String String :=
  match goSplit snapshotID ':' with
  | [] => Except.error ("invalid snapshot ID format: " ++ snapshotID)
  | [_] => Except.error ("invalid snapshot ID format: " ++ snapshotID)
  | kind :: rest =>
    if kind = "zfs" then Except.ok (joinSep ":" rest)
    else Except.error ("invalid snapshot ID format: " ++ snapshotID)

/-- Model of `ZFS.SnapshotRoot`: find the sidecar directory for `relPath`, parse the
snapshot name out of the id, and open `<sidecar>/<name>` with `os.OpenRoot`
(which fails unless it is an existing directory).  Note that the current Go
function returns only the opened root: unlike its predecessor it computes no
snapshot-relative subpath. -/
def zfsSnapshotRoot (fs : FS) (rootDir : List String) (relPath snapshotID : String) :
    Except String (List String) :=
  match zfsFindSnapshotRoot fs rootDir relPath with
  | none => Except.error ("root path empty: " ++ relPath)
  | some rootPath =>
    match getSnapshotPath snapshotID with
    | Except.error e => Except.error ("unable to get snapshot path: " ++ e)
    | Except.ok name =>
      let snapshotPath := rootPath ++ [name]
      if fs.isDirAt snapshotPath then Except.ok snapshotPath
      else Except.error "unable to open snapshot root"

/-- Model of `Adapter.open`: convert the URL path to a relative path; without a
`snapshot` query open it beneath the adapter root, with one open it beneath
the snapshot root produced by `ZFS.SnapshotRoot` — passing the *same* full
storage-relative path to that root's `Open`. -/
def adapterOpen (fs : FS) (rootDir : List String) (scheme p snapshotID : String) :
    Except String (List String × Entry) :=
  match urlToRelPath scheme p with
  | Except.error e => Except.error ("unable to convert path: " ++ e)
  | Except.ok relPath =>
    if snapshotID = "" then rootOpen fs rootDir relPath
    else
      match zfsSnapshotRoot fs rootDir relPath snapshotID with
      | Except.error e => Except.error ("unable to open: " ++ e)
      | Except.ok snapRoot => rootOpen fs snapRoot relPath

/-- Model of `Adapter.stat`: same resolution as `Adapter.open`, via `(*os.Root).Stat`. -/
def adapterStat (fs : FS) (rootDir : List String) (scheme p snapshotID : String) :
    Except String Entry :=
  match urlToRelPath scheme p with
  | Except.error e => Except.error ("unable to convert path: " ++ e)
  | Except.ok relPath =>
    if snapshotID = "" then (rootOpen fs rootDir relPath).map (·.2)
    else
      match zfsSnapshotRoot fs rootDir relPath snapshotID with
      | Except.error e => Except.error ("unable to open: " ++ e)
      | Except.ok snapRoot => (rootOpen fs snapRoot relPath).map (·.2)

/-! ## Timestamp parsing (`DefaultDateTimePatterns`, `parseTimestampFromName`)

Each default pattern is a regex of fixed-width digit runs and literal
separator characters, with one capturing group spanning the whole match.
`FindStringSubmatch` returns the leftmost match, so matching is: try the
token sequence at every position from the left and take the first hit.
`time.Parse` then reads the captured digits positionally against the layout
and rejects out-of-range components (month, day-for-month, hour, minute,
second); with no zone in the layout the result is UTC, and `.Unix()` is the
usual proleptic-Gregorian count of seconds since the epoch. -/

/-- A token of one of the fixed-shape date/time regexes: a run of exactly
`n` digits (`\d{n}`), or a literal character. -/
inductive PatTok where
  | digits (n : Nat)
  | lit (c : Char)
deriving DecidableEq, Repr

/-- Match a token sequence at the start of `cs`, returning the matched
characters. -/
def matchToksAt : List PatTok → List Char → Option (List Char)
  | [], _ => some []
  | PatTok.digits n :: rest, cs =>
    let run := cs.take n
    if run.length = n ∧ run.all Char.isDigit then
      (matchToksAt rest (cs.drop n)).map (fun m => run ++ m)
    else none
  | PatTok.lit c :: rest, cs =>
    match cs with
    | [] => none
    | c' :: cs' =>
      if c' = c then (matchToksAt rest cs').map (fun m => c :: m) else none

/-- Leftmost match of a token sequence anywhere in `cs`
(`regexp.FindStringSubmatch`). -/
def findToks (toks : List PatTok) : List Char → Option (List Char)
  | [] => matchToksAt toks []
  | c :: rest =>
    match matchToksAt toks (c :: rest) with
    | some m => some m
    | none => findToks toks rest

/-- The numeric value of a digit run. -/
def digitsToNat (cs : List Char) : Nat :=
  cs.foldl (fun a c => a * 10 + (c.toNat - 48)) 0

/-- Gregorian leap year. -/
def isLeap (y : Int) : Bool :=
  y % 4 = 0 ∧ (y % 100 ≠ 0 ∨ y % 400 = 0)

/-- Days in a month (`time.Parse` rejects days beyond this). -/
def daysInMonth (y m : Int) : Int :=
  if m = 2 then (if isLeap y then 29 else 28)
  else if m = 4 ∨ m = 6 ∨ m = 9 ∨ m = 11 then 30
  else 31

/-- The range checks `time.Parse` applies to parsed components. -/
def validDate (y mo d h mi s : Int) : Bool :=
  1 ≤ mo ∧ mo ≤ 12 ∧ 1 ≤ d ∧ d ≤ daysInMonth y mo ∧
    0 ≤ h ∧ h ≤ 23 ∧ 0 ≤ mi ∧ mi ≤ 59 ∧ 0 ≤ s ∧ s ≤ 59

/-- Days from 1970-01-01 to the given proleptic-Gregorian civil date
(the standard days-from-civil computation; all divisions act on
non-negative operands for the years 0–9999 handled here). -/
def daysFromCivil (y mo d : Int) : Int :=
  let y' := if mo ≤ 2 then y - 1 else y
  let era := (if 0 ≤ y' then y' else y' - 399) / 400
  let yoe := y' - era * 400
  let mp := (mo + 9) % 12
  let doy := (153 * mp + 2) / 5 + d - 1
  let doe := yoe * 365 + yoe / 4 - yoe / 100 + doy
  era * 146097 + doe - 719468

/-- Model of `time.Date(y, mo, d, h, mi, s, 0, time.UTC).Unix()`. -/
def utcUnix (y mo d h mi s : Int) : Int :=
  daysFromCivil y mo d * 86400 + h * 3600 + mi * 60 + s

/-- The four layouts used by `DefaultDateTimePatterns`, identified by the
fixed positions of their date/time fields in the captured string. -/
inductive LayoutKind where
  | ymdHMS
  | compactHMS
  | ymdHM
  | ymd
deriving DecidableEq, Repr

/-- Model of `time.Parse` of a captured string against its layout: read the digit
fields at their fixed offsets, validate ranges, and convert to a UTC Unix
timestamp. -/
def parseWithLayout (layout : LayoutKind) (cs : List Char) : Option Int :=
  let fld := fun (off len : Nat) => (digitsToNat ((cs.drop off).take len) : Int)
  let comps :=
    match layout with
    | LayoutKind.ymdHMS => (fld 0 4, fld 5 2, fld 8 2, fld 11 2, fld 14 2, fld 17 2)
    | LayoutKind.compactHMS => (fld 0 4, fld 4 2, fld 6 2, fld 9 2, fld 11 2, fld 13 2)
    | LayoutKind.ymdHM => (fld 0 4, fld 5 2, fld 8 2, fld 11 2, fld 14 2, 0)
    | LayoutKind.ymd => (fld 0 4, fld 5 2, fld 8 2, 0, 0, 0)
  match comps with
  | (y, mo, d, h, mi, s) =>
    if validDate y mo d h mi s then some (utcUnix y mo d h mi s) else none

/-- One entry of `DefaultDateTimePatterns`: regex token shape plus layout. -/
structure DateTimePattern where
  toks : List PatTok
  layout : LayoutKind

/-- The digit/separator token shape of `\d{4}-\d{2}-\d{2}`. -/
def ymdToks : List PatTok :=
  [PatTok.digits 4, PatTok.lit '-', PatTok.digits 2, PatTok.lit '-', PatTok.digits 2]

/-- Model of `DefaultDateTimePatterns`, in the configured order: seconds-bearing
dashed form, compact seconds-bearing form, to-the-minute form, date-only
form. -/
def defaultDateTimePatterns : List DateTimePattern :=
  [ { toks := ymdToks ++
        [PatTok.lit '_', PatTok.digits 2, PatTok.lit '-', PatTok.digits 2,
         PatTok.lit '-', PatTok.digits 2],
      layout := LayoutKind.ymdHMS },
    { toks := [PatTok.digits 8, PatTok.lit '_', PatTok.digits 6],
      layout := LayoutKind.compactHMS },
    { toks := ymdToks ++
        [PatTok.lit '_', PatTok.digits 2, PatTok.lit '-', PatTok.digits 2],
      layout := LayoutKind.ymdHM },
    { toks := ymdToks, layout := LayoutKind.ymd } ]

/-- The pattern loop of `ZFS.parseTimestampFromName`: patterns are tried in
order; on a regex match the capture is parsed, a parse error falls through
to the next pattern; `none` models the `(0, false)` "no pattern matched"
result. -/
def tryPatterns : List DateTimePattern → List Char → Option Int
  | [], _ => none
  | p :: rest, cs =>
    match findToks p.toks cs with
    | some m =>
      match parseWithLayout p.layout m with
      | some t => some t
      | none => tryPatterns rest cs
    | none => tryPatterns rest cs

/-- Model of `ZFS.parseTimestampFromName` with the default patterns. -/
def parseTimestampFromName (name : String) : Option Int :=
  tryPatterns defaultDateTimePatterns name.data

/-! ## Snapshot enumeration (`ZFS.Snapshots`) -/

/-- Model of `adapter.Snapshot`: the descriptor built for each sidecar subdirectory;
the metadata map holds the single key `zfs_root`, modelled as a field. -/
structure Snapshot where
  id : String
  type : String
  timestamp : Int
  name : String
  size : Int
  zfsRoot : List String
deriving DecidableEq, Repr

/-- The entry loop of `ZFS.Snapshots`: skip non-directories, parse the
timestamp from the name, fall back to the subdirectory's own modification
time, and build the descriptor. -/
def zfsBuildSnapshots (fs : FS) (rootPath : List String) (names : List String) :
    List Snapshot :=
  names.filterMap (fun n =>
    match fs.stat (rootPath ++ [n]) with
    | some (Entry.dir m) =>
      let timestamp :=
        match parseTimestampFromName n with
        | some t => t
        | none => m
      some { id := "zfs:" ++ n, type := "zfs", timestamp := timestamp,
             name := n, size := -1, zfsRoot := rootPath }
    | _ => none)

/-- Stable insertion step for the descending-timestamp order. -/
def insertSnap (x : Snapshot) : List Snapshot → List Snapshot
  | [] => [x]
  | y :: ys => if y.timestamp ≤ x.timestamp then x :: y :: ys else y :: insertSnap x ys

/-- The `sort.Slice(snapshots, func(i, j) { ts i > ts j })` call, embedded as
a stable insertion sort into weakly-descending timestamp order.  Go's
`sort.Slice` is an unstable comparison sort; any run of it produces a
permutation that is pairwise ordered by `¬(ts j > ts i)`, which this
function also produces (and which Go's own algorithm computes exactly, via
insertion sort, for up to 12 elements).  No theorem below relies on the tie
order of this embedding matching Go's for longer inputs. -/
def sortSnapshotsDesc : List Snapshot → List Snapshot
  | [] => []
  | x :: xs => insertSnap x (sortSnapshotsDesc xs)

/-- Model of `ZFS.Snapshots`.  `findSnapshotRoot` cannot fail, and the Go code then
calls `os.ReadDir(rootPath)` *unconditionally* — including when `rootPath`
is the empty "not found" result `""`, on which `os.ReadDir` always fails
(`open : no such file or directory`). -/
def zfsSnapshots (fs : FS) (rootDir : List String) (relPath : String) :
    Except String (List Snapshot) :=
  match zfsFindSnapshotRoot fs rootDir relPath with
  | none => Except.error "failed to read snapshot dir: open : no such file or directory"
  | some rootPath =>
    match fs.readDir rootPath with
    | Except.error e => Except.error ("failed to read snapshot dir: " ++ e)
    | Except.ok names =>
      Except.ok (sortSnapshotsDesc (zfsBuildSnapshots fs rootPath names))

/-- Model of `Adapter.ListSnapshots`: convert the URL path, then enumerate. -/
def listSnapshots (fs : FS) (rootDir : List String) (scheme p : String) :
    Except String (List Snapshot) :=
  match urlToRelPath scheme p with
  | Except.error e => Except.error ("unable to convert path: " ++ e)
  | Except.ok relPath => zfsSnapshots fs rootDir relPath

/-! ## Remaining adapter capabilities (`MimeType`, `FileSize`, `ReadStream`,
`ListContents`) -/

/-- Model of `strings.Contains` via character lists: `startsWithChars s pat` tests
whether `pat` sits at the front of `s`. -/
def startsWithChars : List Char → List Char → Bool
  | _, [] => true
  | [], _ :: _ => false
  | c :: cs, d :: ds => c = d && startsWithChars cs ds

/-- Whether `pat` occurs contiguously inside the second list. -/
def containsChars (pat : List Char) : List Char → Bool
  | [] => startsWithChars [] pat
  | c :: rest => startsWithChars (c :: rest) pat || containsChars pat rest

/-- Model of `strings.Contains`. -/
def goContains (s sub : String) : Bool :=
  containsChars sub.data s.data

/-- The index of the last `'.'` in a character list. -/
def lastDotIdx (cs : List Char) : Option Nat :=
  match cs.reverse.findIdx? (fun c => c = '.') with
  | some j => some (cs.length - 1 - j)
  | none => none

/-- Model of `strings.TrimPrefix(path.Ext(name), ".")`: the characters after the
final dot of a basename, or empty when it has no dot. -/
def goExt (name : String) : String :=
  match lastDotIdx name.data with
  | some i => String.mk (name.data.drop (i + 1))
  | none => ""

/-- Model of `path.Join` of two elements: empty elements are dropped and the result
is cleaned. -/
def pathJoin (a b : String) : String :=
  if a = "" ∧ b = "" then ""
  else if a = "" then clean b
  else if b = "" then clean a
  else clean (a ++ "/" ++ b)

/-- Model of `Adapter.MimeType`: open the node, read its first 512 bytes and classify
them with the content-sniffing table, which is kept abstract as the
parameter `sniff` (`http.DetectContentType`).  Reading a directory handle
yields no bytes, so a directory sniffs as the empty prefix. -/
def mimeTypeOf (fs : FS) (rootDir : List String) (scheme p snapshotID : String)
    (sniff : List Nat → String) : Except String String :=
  match adapterOpen fs rootDir scheme p snapshotID with
  | Except.error e => Except.error e
  | Except.ok (_, Entry.file c _) => Except.ok (sniff (c.take 512))
  | Except.ok (_, Entry.dir _) => Except.ok (sniff [])

/-- Model of `Adapter.FileSize`: the stat size. -/
def fileSizeOf (fs : FS) (rootDir : List String) (scheme p snapshotID : String) :
    Except String Int :=
  (adapterStat fs rootDir scheme p snapshotID).map Entry.size

/-- Model of `Adapter.ReadStream`: the opened file's bytes.  (On the file-serving
path this is only reached for regular files; a directory handle would fail
only once copied from, so it contributes no bytes here.) -/
def readStreamOf (fs : FS) (rootDir : List String) (scheme p snapshotID : String) :
    Except String (List Nat) :=
  match adapterOpen fs rootDir scheme p snapshotID with
  | Except.error e => Except.error e
  | Except.ok (_, Entry.file c _) => Except.ok c
  | Except.ok (_, Entry.dir _) => Except.ok []

/-- Model of `adapter.FileNode` (URL paths kept as their path component string). -/
structure FileNode where
  path : String
  type : String
  basename : String
  extension : String
  size : Int
  lastModified : Int
  mimeType : String
deriving DecidableEq, Repr

/-- Model of `Adapter.ListContents`: open the node, `Readdir` it (which fails on a
regular file), and build one `FileNode` per entry.  The child URL drops the
query, so the per-child MIME sniff opens the *live* child; its error is
discarded (`mimeType, _ := a.MimeType(...)`). -/
def listContents (fs : FS) (rootDir : List String) (scheme p snapshotID : String)
    (sniff : List Nat → String) : Except String (List FileNode) :=
  match adapterOpen fs rootDir scheme p snapshotID with
  | Except.error e => Except.error e
  | Except.ok (_, Entry.file _ _) => Except.error "readdirent: not a directory"
  | Except.ok (abs, Entry.dir _) =>
    Except.ok ((fs.childNamesRaw abs).filterMap (fun n =>
      (fs.stat (abs ++ [n])).map (fun info =>
        let childPath := pathJoin p n
        if info.isDir then
          { path := childPath, type := "dir", basename := n, extension := "",
            size := 0, lastModified := info.mtime, mimeType := "" }
        else
          let ext := goExt n
          { path := childPath, type := "file", basename := n, extension := ext,
            size := info.size, lastModified := info.mtime,
            mimeType :=
              if ext ≠ "" then
                ((mimeTypeOf fs rootDir scheme childPath "" sniff).toOption).getD ""
              else "" })))

/-! ## `nodes.go`: the node endpoint -/

/-- The query parameters of the node endpoint that the handlers consult. -/
structure ListParams where
  type : Option String
  filterPat : Option String
  search : Option String
  download : Option Bool
  fields : Option String
  snapshot : Option String
deriving DecidableEq, Repr

/-- A request with no query parameters. -/
def ListParams.empty : ListParams :=
  { type := none, filterPat := none, search := none, download := none,
    fields := none, snapshot := none }

/-- Model of `api.Node`: the wire shape of one node. -/
structure ApiNode where
  path : String
  type : String
  basename : String
  extension : String
  fileSize : Int
  lastModified : Int
  mimeType : Option String
deriving DecidableEq, Repr

/-- Model of `api.NodeList`: the wire shape of a directory listing. -/
structure NodeList where
  files : List ApiNode
  dirname : String
  readOnly : Bool
  storages : List String
  totalSize : Option Int
deriving DecidableEq, Repr

/-- The observable HTTP response of the node endpoint: a JSON listing, a
JSON node, a byte stream with its `Content-Type`, `Content-Length` and
optional attachment disposition, or an error with its status code. -/
inductive HttpResponse where
  | jsonList (body : NodeList)
  | jsonNode (body : ApiNode)
  | bytes (contentType : String) (contentLength : Int)
      (disposition : Option String) (body : List Nat)
  | fail (status : Nat) (message : String)
deriving DecidableEq, Repr

/-- Model of `extractPath`: strip one leading `/` from a URL path
(`strings.TrimPrefix(u.Path, "/")`). -/
def extractPath (s : String) : String :=
  match s.data with
  | c :: rest => if c = '/' then String.mk rest else s
  | [] => s

/-- Model of `getBasename`: last `/`-separated component after trimming one trailing
slash; empty for the empty path. -/
def getBasename (path : String) : String :=
  if path = "" then ""
  else
    let trimmed := if endsWithSlash path then String.mk path.data.dropLast else path
    ((goSplit trimmed '/').getLast?).getD ""

/-- The file-metadata extension: `basename[idx:]` for the last dot index
`idx` when `idx > 0` (so it keeps the dot and ignores leading-dot names). -/
def metaExtension (basename : String) : String :=
  match lastDotIdx basename.data with
  | some i => if 0 < i then String.mk (basename.data.drop i) else ""
  | none => ""

/-- The `sort.Slice` comparator of `serveDirectoryListing`: directories
first, then basename ascending. -/
def nodeLess (a b : FileNode) : Bool :=
  if a.type ≠ b.type then decide (a.type = "dir") else goStringLt a.basename b.basename

/-- The non-strict companion of `nodeLess`. -/
def nodeLE (a b : FileNode) : Bool :=
  ! nodeLess b a

/-- Stable insertion step for the listing order. -/
def insertNode (x : FileNode) : List FileNode → List FileNode
  | [] => [x]
  | y :: ys => if nodeLE x y then x :: y :: ys else y :: insertNode x ys

/-- The `sort.Slice(nodes, ...)` call of `serveDirectoryListing`, embedded
as a stable insertion sort.  Real directory entries have pairwise-distinct
basenames, so the comparator admits no ties on the lists this is applied to
and *every* comparison sort — in particular Go's unstable one — produces
this unique result. -/
def sortNodes : List FileNode → List FileNode
  | [] => []
  | x :: xs => insertNode x (sortNodes xs)

/-- Model of `strings.Trim(pattern, "*")`: drop leading and trailing asterisks. -/
def trimStars (s : String) : String :=
  String.mk (((s.data.dropWhile (fun c => c = '*')).reverse.dropWhile
    (fun c => c = '*')).reverse)

/-- The `type` filter: applied whenever the parameter is present. -/
def applyTypeFilter (params : ListParams) (nodes : List FileNode) : List FileNode :=
  match params.type with
  | none => nodes
  | some t => nodes.filter (fun n => n.type = t)

/-- The `filter` filter: substring match on the basename after stripping
asterisks, applied for a present non-empty parameter. -/
def applyNameFilter (params : ListParams) (nodes : List FileNode) : List FileNode :=
  match params.filterPat with
  | none => nodes
  | some pat =>
    if pat = "" then nodes
    else nodes.filter (fun n => goContains n.basename (trimStars pat))

/-- Model of `strings.ToLower` (character-wise lowering). -/
def goToLower (s : String) : String :=
  String.mk (s.data.map Char.toLower)

/-- The `search` filter: case-insensitive substring match on the basename,
applied for a present non-empty parameter. -/
def applySearch (params : ListParams) (nodes : List FileNode) : List FileNode :=
  match params.search with
  | none => nodes
  | some q =>
    if q = "" then nodes
    else nodes.filter (fun n => goContains (goToLower n.basename) (goToLower q))

/-- The three filters of `serveDirectoryListing` in program order. -/
def applyFilters (params : ListParams) (nodes : List FileNode) : List FileNode :=
  applySearch params (applyNameFilter params (applyTypeFilter params nodes))

/-- Model of `storage.FileNode → api.Node` conversion inside `serveDirectoryListing`. -/
def toApiNode (n : FileNode) : ApiNode :=
  { path := extractPath n.path, type := n.type, basename := n.basename,
    extension := n.extension, fileSize := n.size, lastModified := n.lastModified,
    mimeType := if n.mimeType ≠ "" then some n.mimeType else none }

/-- Model of `serveDirectoryListing`: sort, filter, convert, and serialize with
`ReadOnly: false` (the literal in the source, marked TODO there).  The
recursive `computeTotalSize` walk is abstracted as `walkTotal`; its result
is attached only when `fields` requests `(total_size)`, and its error is
only logged. -/
def serveDirectoryListing (storageNames : List String) (path : String)
    (nodes : List FileNode) (params : ListParams) (walkTotal : Except String Int) :
    HttpResponse :=
  let sorted := sortNodes nodes
  let filtered := applyFilters params sorted
  let files := filtered.map toApiNode
  let totalSize :=
    match params.fields with
    | none => none
    | some f =>
      if f ≠ "" ∧ goContains f "(total_size)" then
        match walkTotal with
        | Except.ok v => some v
        | Except.error _ => none
      else none
  HttpResponse.jsonList
    { files := files, dirname := path, readOnly := false,
      storages := sortStrings storageNames, totalSize := totalSize }

/-- Model of `serveFileMetadata`: stat-backed JSON metadata for a file.  The local
adapter implements no `storage.Stater` capability, so the `LastModified`
lookup is skipped and the field stays 0; a MIME sniff failure falls back to
`application/octet-stream` after logging. -/
def serveFileMetadata (fs : FS) (rootDir : List String) (p snapshotID : String)
    (sniff : List Nat → String) : HttpResponse :=
  match fileSizeOf fs rootDir "local" p snapshotID with
  | Except.error e => HttpResponse.fail 404 ("Failed to get file size: " ++ e)
  | Except.ok size =>
    let mt :=
      match mimeTypeOf fs rootDir "local" p snapshotID sniff with
      | Except.ok m => m
      | Except.error _ => "application/octet-stream"
    let basename := getBasename p
    HttpResponse.jsonNode
      { path := p, type := "file", basename := basename,
        extension := metaExtension basename, fileSize := size, lastModified := 0,
        mimeType := if mt ≠ "" then some mt else none }

/-- Model of `serveFileContent`: stream the file bytes with the sniffed
`Content-Type`, the stat size as `Content-Length`, and an attachment
disposition when `download` is set. -/
def serveFileContent (fs : FS) (rootDir : List String) (p snapshotID : String)
    (download : Bool) (sniff : List Nat → String) : HttpResponse :=
  match mimeTypeOf fs rootDir "local" p snapshotID sniff with
  | Except.error e => HttpResponse.fail 404 ("Failed to get file MIME type: " ++ e)
  | Except.ok mt =>
    match fileSizeOf fs rootDir "local" p snapshotID with
    | Except.error e => HttpResponse.fail 404 ("Failed to get file size: " ++ e)
    | Except.ok size =>
      match readStreamOf fs rootDir "local" p snapshotID with
      | Except.error e => HttpResponse.fail 404 ("Failed to open file: " ++ e)
      | Except.ok content =>
        HttpResponse.bytes mt size
          (if download then some (getBasename p) else none) content

/-- Model of `GetStoragesStorageNodesPath`: look up the storage (the registry holds
the single adapter `"local"`), decide JSON-vs-bytes from whether the
`Accept` header contains `application/json`, first try to list the node as
a directory, and fall back to file metadata or file content.  The
`snapshot` query value is the empty string when the parameter is absent or
empty. -/
def getStoragesStorageNodesPath (fs : FS) (rootDir : List String)
    (storageNames : List String) (storageName p accept : String)
    (params : ListParams) (sniff : List Nat → String)
    (walkTotal : Except String Int) : HttpResponse :=
  if storageName ≠ "local" then HttpResponse.fail 404 "Storage Not Found"
  else
    let snap := (params.snapshot).getD ""
    let wantsJSON := goContains accept "application/json"
    match listContents fs rootDir "local" p snap sniff with
    | Except.ok nodes => serveDirectoryListing storageNames p nodes params walkTotal
    | Except.error _ =>
      if wantsJSON then serveFileMetadata fs rootDir p snap sniff
      else serveFileContent fs rootDir p snap ((params.download).getD false) sniff

/-! ## `snapshots.go`: the snapshot-list endpoint -/

/-- Model of `api.Snapshot`: the wire shape of one snapshot descriptor (`Name` is a
pointer and always set; `Size` is attached only when non-negative; the
metadata map is always non-nil, carrying `zfs_root`). -/
structure ApiSnapshot where
  id : String
  type : String
  timestamp : Int
  name : Option String
  size : Option Int
  zfsRoot : Option (List String)
deriving DecidableEq, Repr

/-- Model of `adapter.Snapshot → api.Snapshot`. -/
def toApiSnapshot (s : Snapshot) : ApiSnapshot :=
  { id := s.id, type := s.type, timestamp := s.timestamp, name := some s.name,
    size := if 0 ≤ s.size then some s.size else none, zfsRoot := some s.zfsRoot }

/-- Model of `api.NodeSnapshotsList`. -/
structure SnapshotsBody where
  storage : String
  path : String
  snapshots : List ApiSnapshot
deriving DecidableEq, Repr

/-- The observable response of the snapshot-list endpoint. -/
inductive SnapResponse where
  | ok (body : SnapshotsBody)
  | fail (status : Nat) (message : String)
deriving DecidableEq, Repr

/-- The pagination block of `GetStoragesStorageSnapshotsPath`: defaults
1000/0, an offset at or past the end empties the list, then the limit caps
it.  A negative offset reaching `snapshots[offset:]`, or a negative limit
reaching `snapshots[:limit]`, panics in Go — modelled as `none`. -/
def paginateSnapshots (snaps : List Snapshot) (limitP offsetP : Option Int) :
    Option (List Snapshot) :=
  let limit := limitP.getD 1000
  let offset := offsetP.getD 0
  let s1opt :=
    if (snaps.length : Int) ≤ offset then some []
    else if offset < 0 then none
    else some (snaps.drop offset.toNat)
  match s1opt with
  | none => none
  | some s1 =>
    if limit < (s1.length : Int) then
      if limit < 0 then none else some (s1.take limit.toNat)
    else some s1

/-- Model of `GetStoragesStorageSnapshotsPath`: storage lookup, snapshot listing
(an adapter error maps to a 500), pagination, conversion, and a 200 JSON
body.  `none` models a Go panic inside the pagination slices. -/
def getStoragesStorageSnapshotsPath (fs : FS) (rootDir : List String)
    (storageName p : String) (limitP offsetP : Option Int) : Option SnapResponse :=
  if storageName ≠ "local" then some (SnapResponse.fail 404 "Storage Not Found")
  else
    match listSnapshots fs rootDir "local" p with
    | Except.error e => some (SnapResponse.fail 500 ("Failed to get snapshots: " ++ e))
    | Except.ok snaps =>
      match paginateSnapshots snaps limitP offsetP with
      | none => none
      | some page =>
        some (SnapResponse.ok
          { storage := "local", path := p, snapshots := page.map toApiSnapshot })

/-! ## Concrete filesystem fixtures used by the theorems -/

/-- A storage rooted at `/r` whose subdirectory `a` bears the sidecar; the
snapshot `s1` holds the copy `b.txt` of `a/b.txt` (so the snapshot-relative
subpath of `a/b.txt` is `b.txt`). -/
def fsNestedSidecar : FS := ⟨[
  (["r"], Entry.dir 0),
  (["r", "a"], Entry.dir 0),
  (["r", "a", ".zfs"], Entry.dir 0),
  (["r", "a", ".zfs", "snapshot"], Entry.dir 0),
  (["r", "a", ".zfs", "snapshot", "s1"], Entry.dir 5),
  (["r", "a", ".zfs", "snapshot", "s1", "b.txt"], Entry.file [111, 108, 100] 3)]⟩

/-- A storage rooted at `/r` with no `.zfs/snapshot` sidecar anywhere, at or
above the root. -/
def fsNoSidecar : FS := ⟨[
  (["r"], Entry.dir 0),
  (["r", "docs"], Entry.dir 0),
  (["r", "docs", "f.txt"], Entry.file [97] 1)]⟩

/-- A storage rooted at `/d/storage` whose only sidecar lives at `/d` —
strictly above the configured storage root. -/
def fsSidecarAbove : FS := ⟨[
  (["d"], Entry.dir 0),
  (["d", "storage"], Entry.dir 0),
  (["d", ".zfs"], Entry.dir 0),
  (["d", ".zfs", "snapshot"], Entry.dir 0),
  (["d", ".zfs", "snapshot", "s"], Entry.dir 7)]⟩

/-- A storage rooted at `/r` with a root sidecar holding two snapshots whose
names match no timestamp pattern, so their directory mtimes (9 and 8) order
them. -/
def fsTwoSnapshots : FS := ⟨[
  (["r"], Entry.dir 0),
  (["r", ".zfs"], Entry.dir 0),
  (["r", ".zfs", "snapshot"], Entry.dir 0),
  (["r", ".zfs", "snapshot", "older"], Entry.dir 8),
  (["r", ".zfs", "snapshot", "newer"], Entry.dir 9)]⟩

/-- A storage rooted at `/r` holding the single 5-byte file `test.txt`. -/
def fsOneFile : FS := ⟨[
  (["r"], Entry.dir 0),
  (["r", "test.txt"], Entry.file [72, 101, 108, 108, 111] 2)]⟩

/-! ## C2 — snapshot-scoped opens and the snapshot-relative subpath -/

/-- C2: for a relpath whose sidecar-bearing ancestor lies below the storage
root, a snapshot-scoped open must address the portion of the relpath below
that ancestor inside the snapshot gateway.  The code opens the correct
gateway `<A>/.zfs/snapshot/<name>` but then resolves the *full*
storage-relative path beneath it (`ZFS.SnapshotRoot` no longer returns the
snapshot-relative subpath its own doc comment promises, and `Adapter.open`
passes `relPath` unchanged to the snapshot root), so the open fails even
though the snapshot copy exists exactly where the specified subpath points:
opening `a/b.txt` in snapshot `zfs:s1` resolves
`/r/a/.zfs/snapshot/s1/a/b.txt` instead of `/r/a/.zfs/snapshot/s1/b.txt`. -/
theorem c2_snapshot_subpath_divergence :
    zfsSnapshotRoot fsNestedSidecar ["r"] "a/b.txt" "zfs:s1" =
      Except.ok ["r", "a", ".zfs", "snapshot", "s1"] ∧
    rootOpen fsNestedSidecar ["r", "a", ".zfs", "snapshot", "s1"] "b.txt" =
      Except.ok (["r", "a", ".zfs", "snapshot", "s1", "b.txt"],
        Entry.file [111, 108, 100] 3) ∧
    adapterOpen fsNestedSidecar ["r"] "local" "a/b.txt" "zfs:s1" =
      Except.error "open a/b.txt: no such file or directory" ∧
    adapterStat fsNestedSidecar ["r"] "local" "a/b.txt" "zfs:s1" =
      Except.error "open a/b.txt: no such file or directory" := by
  refine ⟨?_, ?_, ?_, ?_⟩ <;> rfl

/-! ## C3 — snapshot enumeration without any sidecar -/

/-- C3: with no sidecar-bearing ancestor the claim requires an empty list
and never an error, but `ZFS.Snapshots` passes the empty "not found" root
straight to `os.ReadDir`, which fails, so the adapter returns an error and
the endpoint turns it into a 500.  Here no level at or above
`/r/docs` — up to and including the filesystem root — has a sidecar. -/
theorem c3_no_sidecar_is_error :
    (∀ k, k ≤ (["r"] ++ relSegs "docs").length →
      fsNoSidecar.isDirAt ((["r"] ++ relSegs "docs").take k ++ zfsSidecar) = false) ∧
    listSnapshots fsNoSidecar ["r"] "local" "docs" =
      Except.error "failed to read snapshot dir: open : no such file or directory" ∧
    getStoragesStorageSnapshotsPath fsNoSidecar ["r"] "local" "docs" none none =
      some (SnapResponse.fail 500
        "Failed to get snapshots: failed to read snapshot dir: open : no such file or directory") := by
  refine ⟨?_, rfl, rfl⟩
  decide

/-! ## C9 — the `read_only` field of directory listings -/

/-- C9 (counterexample): a directory listing response carries
`read_only = false`, not `true` as claimed — `serveDirectoryListing`
hard-codes `ReadOnly: false` (with a TODO). -/
theorem c9_counterexample :
    ∃ body,
      serveDirectoryListing ["local"] "" [] ListParams.empty (Except.error "") =
        HttpResponse.jsonList body ∧ body.readOnly = false :=
  ⟨_, rfl, rfl⟩

/-- C9 (amended): every directory listing response carries
`read_only = false`. -/
theorem c9_read_only_always_false (storageNames : List String) (path : String)
    (nodes : List FileNode) (params : ListParams) (walkTotal : Except String Int) :
    ∃ body,
      serveDirectoryListing storageNames path nodes params walkTotal =
        HttpResponse.jsonList body ∧ body.readOnly = false :=
  ⟨_, rfl, rfl⟩

/-! ## C4 — which directories sidecar discovery tests -/

/-- C4 (counterexample): sidecar discovery does not stop at the storage
root.  With the storage rooted at `/d/storage` and the only sidecar at
`/d/.zfs/snapshot`, discovery for the storage root returns that sidecar —
a directory strictly above the storage root (it extends no path of the form
`<root>/...`). -/
theorem c4_counterexample :
    zfsFindSnapshotRoot fsSidecarAbove ["d", "storage"] "." =
      some ["d", ".zfs", "snapshot"] ∧
    ∀ rest : List String, ["d", ".zfs", "snapshot"] ≠ ["d", "storage"] ++ rest := by
  refine ⟨rfl, ?_⟩
  intro rest h
  simp at h

/-! ## C10 — pagination of the snapshot list -/

/-- The pagination block on client-supplied non-negative `limit` and
`offset` computes exactly `drop offset` then `take limit`. -/
theorem paginateSnapshots_nonneg (snaps : List Snapshot) (l o : Int)
    (hl : 0 ≤ l) (ho : 0 ≤ o) :
    paginateSnapshots snaps (some l) (some o) =
      some ((snaps.drop o.toNat).take l.toNat) := by
  unfold paginateSnapshots
  simp only [Option.getD]
  by_cases hcase : (snaps.length : Int) ≤ o
  · have hdrop : snaps.drop o.toNat = [] := by
      apply List.drop_eq_nil_of_le
      omega
    have hl0 : ¬ l < ((0 : Nat) : Int) := by omega
    simp [hcase, hdrop, hl0]
    omega
  · have ho0 : ¬ o < 0 := by omega
    simp only [if_neg hcase, if_neg ho0]
    by_cases h2 : l < (((snaps.drop o.toNat).length : Nat) : Int)
    · have hln : ¬ l < 0 := by omega
      simp [h2, hln]
      omega
    · have hle : (snaps.drop o.toNat).length ≤ l.toNat := by
        have := List.length_drop o.toNat snaps
        omega
      simp [h2, List.take_of_length_le hle]
      omega

/-- C10: on any successfully listed snapshot sequence, a request with
non-negative `offset` and `limit` receives a 200 body holding exactly the
elements at indices `[offset, min (offset+limit) n)` of the sorted list
(`drop` then `take`), and an offset at or past the end yields an empty
`snapshots` array, still as a success. -/
theorem c10_snapshot_pagination (fs : FS) (rootDir : List String) (p : String)
    (snaps : List Snapshot) (l o : Int)
    (hlist : listSnapshots fs rootDir "local" p = Except.ok snaps)
    (hl : 0 ≤ l) (ho : 0 ≤ o) :
    getStoragesStorageSnapshotsPath fs rootDir "local" p (some l) (some o) =
      some (SnapResponse.ok
        { storage := "local", path := p,
          snapshots := ((snaps.drop o.toNat).take l.toNat).map toApiSnapshot }) ∧
    ((snaps.drop o.toNat).take l.toNat).length = min l.toNat (snaps.length - o.toNat) ∧
    ((snaps.length : Int) ≤ o → (snaps.drop o.toNat).take l.toNat = []) := by
  refine ⟨?_, ?_, ?_⟩
  · unfold getStoragesStorageSnapshotsPath
    simp [hlist, paginateSnapshots_nonneg snaps l o hl ho]
  · simp [List.length_take, List.length_drop]
  · intro hpast
    have hdrop : snaps.drop o.toNat = [] := by
      apply List.drop_eq_nil_of_le
      omega
    simp [hdrop]

/-- C10 witness: on the two-snapshot fixture, `offset=1, limit=1` returns
exactly the second (older) descriptor, and `offset=7` past the end returns
an empty 200 body. -/
theorem c10_witness :
    listSnapshots fsTwoSnapshots ["r"] "local" "" = Except.ok
      [{ id := "zfs:newer", type := "zfs", timestamp := 9, name := "newer",
         size := -1, zfsRoot := ["r", ".zfs", "snapshot"] },
       { id := "zfs:older", type := "zfs", timestamp := 8, name := "older",
         size := -1, zfsRoot := ["r", ".zfs", "snapshot"] }] ∧
    getStoragesStorageSnapshotsPath fsTwoSnapshots ["r"] "local" "" (some 1) (some 1) =
      some (SnapResponse.ok
        { storage := "local", path := "",
          snapshots := [{ id := "zfs:older", type := "zfs", timestamp := 8,
                          name := some "older", size := none,
                          zfsRoot := some ["r", ".zfs", "snapshot"] }] }) ∧
    getStoragesStorageSnapshotsPath fsTwoSnapshots ["r"] "local" "" (some 5) (some 7) =
      some (SnapResponse.ok
        { storage := "local", path := "", snapshots := [] }) := by
  refine ⟨rfl, ?_, ?_⟩
  · exact (c10_snapshot_pagination fsTwoSnapshots ["r"] ""
      [{ id := "zfs:newer", type := "zfs", timestamp := 9, name := "newer",
         size := -1, zfsRoot := ["r", ".zfs", "snapshot"] },
       { id := "zfs:older", type := "zfs", timestamp := 8, name := "older",
         size := -1, zfsRoot := ["r", ".zfs", "snapshot"] }] 1 1 rfl
      (by decide) (by decide)).1
  · exact (c10_snapshot_pagination fsTwoSnapshots ["r"] ""
      [{ id := "zfs:newer", type := "zfs", timestamp := 9, name := "newer",
         size := -1, zfsRoot := ["r", ".zfs", "snapshot"] },
       { id := "zfs:older", type := "zfs", timestamp := 8, name := "older",
         size := -1, zfsRoot := ["r", ".zfs", "snapshot"] }] 5 7 rfl
      (by decide) (by decide)).1

/-! ## C6 — timestamp pattern priority and the mtime fallback -/

/-- Inserting into the descending sort permutes. -/
theorem insertSnap_perm (x : Snapshot) (l : List Snapshot) :
    List.Perm (insertSnap x l) (x :: l) := by
  induction l with
  | nil => exact List.Perm.refl _
  | cons y ys ih =>
    unfold insertSnap
    by_cases h : y.timestamp ≤ x.timestamp
    · simp [h]
    · simp only [if_neg h]
      exact ((ih.cons y).trans (List.Perm.swap x y ys))

/-- The descending snapshot sort permutes its input. -/
theorem sortSnapshotsDesc_perm (l : List Snapshot) :
    List.Perm (sortSnapshotsDesc l) l := by
  induction l with
  | nil => exact List.Perm.refl _
  | cons x xs ih =>
    exact (insertSnap_perm x (sortSnapshotsDesc xs)).trans (ih.cons x)

/-- C6: the timestamp patterns are tried in their configured order and the
first match wins — the seconds-bearing name `backup-2025-11-09_14-30-45`
parses to 14:30:45 UTC (Unix 1762698645), not to the 14:30:00 truncation the
broader minute pattern would produce — and every snapshot whose name matches
no pattern takes the sidecar subdirectory's own modification time as its
timestamp in the enumeration. -/
theorem c6_timestamp_parsing :
    parseTimestampFromName "backup-2025-11-09_14-30-45" =
      some (utcUnix 2025 11 9 14 30 45) ∧
    utcUnix 2025 11 9 14 30 45 = 1762698645 ∧
    utcUnix 2025 11 9 14 30 45 ≠ utcUnix 2025 11 9 14 30 0 ∧
    (∀ (fs : FS) (rootDir : List String) (relPath : String)
        (snaps : List Snapshot) (s : Snapshot),
      zfsSnapshots fs rootDir relPath = Except.ok snaps → s ∈ snaps →
      parseTimestampFromName s.name = none →
      fs.stat (s.zfsRoot ++ [s.name]) = some (Entry.dir s.timestamp)) := by
  refine ⟨by decide, by decide, by decide, ?_⟩
  intro fs rootDir relPath snaps s hok hmem hparse
  unfold zfsSnapshots at hok
  cases hfind : zfsFindSnapshotRoot fs rootDir relPath with
  | none => rw [hfind] at hok; cases hok
  | some rootPath =>
    rw [hfind] at hok
    dsimp only at hok
    cases hrd : fs.readDir rootPath with
    | error e => rw [hrd] at hok; cases hok
    | ok names =>
      rw [hrd] at hok
      dsimp only at hok
      injection hok with hsn
      have hmem' : s ∈ zfsBuildSnapshots fs rootPath names := by
        have hperm := sortSnapshotsDesc_perm (zfsBuildSnapshots fs rootPath names)
        rw [hsn] at hperm
        exact hperm.mem_iff.mp hmem

      rcases List.mem_filterMap.mp hmem' with ⟨n, _, hf⟩
      cases hstat : fs.stat (rootPath ++ [n]) with
      | none =>
        rw [hstat] at hf
        simp at hf
      | some e =>
        cases e with
        | file c m =>
          rw [hstat] at hf
          simp at hf
        | dir m =>
          rw [hstat] at hf
          simp only [Option.some.injEq] at hf
          subst hf
          simp only at hparse ⊢
          rw [hparse]
          exact hstat

/-- C6 witness: the fixture's snapshot names match no pattern, and its
`newer` descriptor indeed carries the subdirectory's mtime 9. -/
theorem c6_witness :
    zfsSnapshots fsTwoSnapshots ["r"] "." = Except.ok
      [{ id := "zfs:newer", type := "zfs", timestamp := 9, name := "newer",
         size := -1, zfsRoot := ["r", ".zfs", "snapshot"] },
       { id := "zfs:older", type := "zfs", timestamp := 8, name := "older",
         size := -1, zfsRoot := ["r", ".zfs", "snapshot"] }] ∧
    parseTimestampFromName "newer" = none ∧
    fsTwoSnapshots.stat (["r", ".zfs", "snapshot"] ++ ["newer"]) =
      some (Entry.dir 9) := by
  refine ⟨rfl, rfl, ?_⟩
  exact c6_timestamp_parsing.2.2.2 fsTwoSnapshots ["r"] "."
    [{ id := "zfs:newer", type := "zfs", timestamp := 9, name := "newer",
       size := -1, zfsRoot := ["r", ".zfs", "snapshot"] },
     { id := "zfs:older", type := "zfs", timestamp := 8, name := "older",
       size := -1, zfsRoot := ["r", ".zfs", "snapshot"] }]
    { id := "zfs:newer", type := "zfs", timestamp := 9, name := "newer",
      size := -1, zfsRoot := ["r", ".zfs", "snapshot"] }
    rfl (by decide) rfl

/-! ## C4 (amended) — full characterisation of the sidecar walk -/

/-- One-step unfolding of the upward walk in terms of the current absolute
path: test `<cur>/.zfs/snapshot`, stop at the filesystem root, otherwise
recurse on the parent. -/
theorem findSnapshotRootFrom_eq (fs : FS) (cur : List String) :
    findSnapshotRootFrom fs cur =
      if fs.isDirAt (cur ++ zfsSidecar) then some (cur ++ zfsSidecar)
      else if cur = [] then none
      else findSnapshotRootFrom fs cur.dropLast := by
  rcases List.eq_nil_or_concat cur with h | ⟨L, b, h⟩
  · subst h
    simp [findSnapshotRootFrom, findSnapshotRootFromRev]
  · rw [List.concat_eq_append] at h
    subst h
    have hne : L ++ [b] ≠ [] := by simp
    rw [if_neg hne, List.dropLast_concat]
    unfold findSnapshotRootFrom
    rw [show (L ++ [b]).reverse = b :: L.reverse by simp]
    rw [findSnapshotRootFromRev.eq_def]
    simp only [List.reverse_cons, List.reverse_reverse]

/-- The walk returns the sidecar of the longest ancestor (prefix) of the
start path that bears one — ancestors are scanned from the start path up to
and including the filesystem root — and returns nothing exactly when no
ancestor at all bears a sidecar. -/
theorem findSnapshotRootFrom_spec (fs : FS) (cur : List String) :
    (∀ d, findSnapshotRootFrom fs cur = some d →
      ∃ k, k ≤ cur.length ∧ d = cur.take k ++ zfsSidecar ∧ fs.isDirAt d = true ∧
        ∀ j, k < j → j ≤ cur.length →
          fs.isDirAt (cur.take j ++ zfsSidecar) = false) ∧
    (findSnapshotRootFrom fs cur = none →
      ∀ k, k ≤ cur.length → fs.isDirAt (cur.take k ++ zfsSidecar) = false) := by
  induction cur using List.reverseRecOn with
  | nil =>
    rw [findSnapshotRootFrom_eq]
    by_cases hdir : fs.isDirAt ([] ++ zfsSidecar) = true
    · rw [if_pos hdir]
      constructor
      · intro d hd
        injection hd with hd
        subst hd
        exact ⟨0, Nat.le_refl 0, by simp, hdir,
          fun j h1 h2 => absurd (Nat.lt_of_lt_of_le h1 h2) (by simp)⟩
      · intro hnone
        cases hnone
    · rw [if_neg hdir, if_pos rfl]
      constructor
      · intro d hd
        cases hd
      · intro _ k hk
        have hk0 : k = 0 := Nat.le_zero.mp hk
        subst hk0
        simp only [List.take_nil, List.nil_append]
        simpa using hdir
  | append_singleton L b ih =>
    rw [findSnapshotRootFrom_eq]
    have hne : L ++ [b] ≠ [] := by simp
    have hlen : (L ++ [b]).length = L.length + 1 := by simp
    by_cases hdir : fs.isDirAt ((L ++ [b]) ++ zfsSidecar) = true
    · rw [if_pos hdir]
      constructor
      · intro d hd
        injection hd with hd
        refine ⟨(L ++ [b]).length, Nat.le_refl _, ?_, ?_, ?_⟩
        · rw [List.take_length]
          exact hd.symm
        · rw [hd] at hdir
          exact hdir
        · intro j h1 h2
          omega
      · intro hnone
        cases hnone
    · have hdir' : fs.isDirAt ((L ++ [b]) ++ zfsSidecar) = false := by
        simpa using hdir
      have hstep :
          (if fs.isDirAt ((L ++ [b]) ++ zfsSidecar) then
              some ((L ++ [b]) ++ zfsSidecar)
            else if L ++ [b] = [] then none
            else findSnapshotRootFrom fs (L ++ [b]).dropLast) =
            findSnapshotRootFrom fs L := by
        rw [if_neg (by simpa using hdir'), if_neg hne, List.dropLast_concat]
      rw [hstep]
      have htake : ∀ j, j ≤ L.length →
          (L ++ [b]).take j = L.take j := by
        intro j hj
        rw [List.take_append_of_le_length hj]
      constructor
      · intro d hd
        rcases ih.1 d hd with ⟨k, hk, hdform, hdindir, hmax⟩
        refine ⟨k, by omega, ?_, hdindir, ?_⟩
        · rw [htake k hk]
          exact hdform
        · intro j h1 h2
          rcases Nat.lt_or_ge j (L.length + 1) with hj | hj
          · have hj' : j ≤ L.length := by omega
            rw [htake j hj']
            exact hmax j h1 hj'
          · have : j = (L ++ [b]).length := by omega
            subst this
            rw [List.take_length]
            exact hdir'
      · intro hnone k hk
        rcases Nat.lt_or_ge k (L.length + 1) with hj | hj
        · have hk' : k ≤ L.length := by omega
          rw [htake k hk']
          exact ih.2 hnone k hk'
        · have : k = (L ++ [b]).length := by omega
          subst this
          rw [List.take_length]
          exact hdir'

/-- C4 (amended): sidecar discovery tests exactly the chain of ancestors of
`<root>/<relpath>`, but it does not stop at the storage root — the chain
runs to the filesystem root, so prefixes shorter than `rootDir` (directories
strictly above the storage root) are also tested and can be returned.  The
result is the sidecar of the nearest (longest-prefix) ancestor bearing one,
and `none` exactly when no ancestor up to `/` bears one. -/
theorem c4_sidecar_walk (fs : FS) (rootDir : List String) (relPath : String) :
    (∀ d, zfsFindSnapshotRoot fs rootDir relPath = some d →
      ∃ k, k ≤ (rootDir ++ relSegs relPath).length ∧
        d = (rootDir ++ relSegs relPath).take k ++ zfsSidecar ∧
        fs.isDirAt d = true ∧
        ∀ j, k < j → j ≤ (rootDir ++ relSegs relPath).length →
          fs.isDirAt ((rootDir ++ relSegs relPath).take j ++ zfsSidecar) = false) ∧
    (zfsFindSnapshotRoot fs rootDir relPath = none →
      ∀ k, k ≤ (rootDir ++ relSegs relPath).length →
        fs.isDirAt ((rootDir ++ relSegs relPath).take k ++ zfsSidecar) = false) :=
  findSnapshotRootFrom_spec fs (rootDir ++ relSegs relPath)

/-- C4 witness: on the fixture whose only sidecar sits above the storage
root, the walk's result is characterised at the concrete input — the
returned sidecar extends the prefix `["d"]` of the start path
`["d", "storage"]`, i.e. a directory above the storage root. -/
theorem c4_witness :
    ∃ k, k ≤ (["d", "storage"] ++ relSegs ".").length ∧
      ["d", ".zfs", "snapshot"] =
        (["d", "storage"] ++ relSegs ".").take k ++ zfsSidecar ∧
      fsSidecarAbove.isDirAt ["d", ".zfs", "snapshot"] = true ∧
      ∀ j, k < j → j ≤ (["d", "storage"] ++ relSegs ".").length →
        fsSidecarAbove.isDirAt
          ((["d", "storage"] ++ relSegs ".").take j ++ zfsSidecar) = false :=
  (c4_sidecar_walk fsSidecarAbove ["d", "storage"] ".").1 ["d", ".zfs", "snapshot"] rfl

/-! ## C8 — order lemmas for the listing sort -/

/-- The comparison `charListLt` is irreflexive. -/
theorem charListLt_irrefl : ∀ a : List Char, charListLt a a = false
  | [] => rfl
  | c :: cs => by simp [charListLt, charListLt_irrefl cs]

/-- The comparison `charListLt` is transitive. -/
theorem charListLt_trans : ∀ {a b c : List Char},
    charListLt a b = true → charListLt b c = true → charListLt a c = true
  | [], _ :: _, _ :: _, _, _ => rfl
  | x :: xs, y :: ys, z :: zs, h1, h2 => by
    simp only [charListLt] at h1 h2 ⊢
    by_cases hxy : x = y
    · subst hxy
      rw [if_pos rfl] at h1
      by_cases hyz : x = z
      · subst hyz
        rw [if_pos rfl] at h2 ⊢
        exact charListLt_trans h1 h2
      · rw [if_neg hyz] at h2 ⊢
        exact h2
    · rw [if_neg hxy] at h1
      have hxy' : x < y := of_decide_eq_true h1
      by_cases hyz : y = z
      · subst hyz
        rw [if_neg hxy]
        exact h1
      · have hyz' : y < z := of_decide_eq_true (by simpa [hyz] using h2)
        have hxz : x < z := lt_trans hxy' hyz'
        rw [if_neg (ne_of_lt hxz)]
        exact decide_eq_true hxz

/-- Lists that are `charListLt`-incomparable are equal. -/
theorem charListLt_connex : ∀ {a b : List Char},
    charListLt a b = false → charListLt b a = false → a = b
  | [], [], _, _ => rfl
  | [], _ :: _, h1, _ => by simp [charListLt] at h1
  | _ :: _, [], _, h2 => by simp [charListLt] at h2
  | x :: xs, y :: ys, h1, h2 => by
    simp only [charListLt] at h1 h2
    by_cases hxy : x = y
    · subst hxy
      rw [if_pos rfl] at h1 h2
      rw [charListLt_connex h1 h2]
    · rw [if_neg hxy] at h1
      rw [if_neg (fun h => hxy h.symm)] at h2
      have hxy' : ¬ x < y := of_decide_eq_false h1
      have hyx' : ¬ y < x := of_decide_eq_false h2
      exact absurd (le_antisymm (not_lt.mp hyx') (not_lt.mp hxy')) hxy

/-- Trichotomy for `charListLt`. -/
theorem charListLt_trichotomy (a b : List Char) :
    charListLt a b = true ∨ a = b ∨ charListLt b a = true := by
  by_cases h1 : charListLt a b = true
  · exact Or.inl h1
  · by_cases h2 : charListLt b a = true
    · exact Or.inr (Or.inr h2)
    · exact Or.inr (Or.inl (charListLt_connex
        (Bool.not_eq_true _ ▸ Bool.of_not_eq_true h1)
        (Bool.not_eq_true _ ▸ Bool.of_not_eq_true h2)))

/-- Transitivity of the non-strict companion of `charListLt`. -/
theorem charListLt_false_trans {a b c : List Char}
    (h1 : charListLt b a = false) (h2 : charListLt c b = false) :
    charListLt c a = false := by
  by_contra h
  have h3 : charListLt c a = true := by
    cases hca : charListLt c a
    · exact absurd hca h
    · rfl
  rcases charListLt_trichotomy b a with hba | hba | hba
  · rw [hba] at h1
    cases h1
  · subst hba
    rw [h3] at h2
    cases h2
  · have : charListLt c b = true := charListLt_trans h3 hba
    rw [this] at h2
    cases h2

/-- A `FileNode` produced by directory enumeration: its type is `"file"` or
`"dir"`. -/
def ValidType (n : FileNode) : Prop :=
  n.type = "file" ∨ n.type = "dir"

/-- The comparator `nodeLess` is asymmetric, for arbitrary nodes. -/
theorem nodeLess_asymm (a b : FileNode) :
    nodeLess a b = true → nodeLess b a = true → False := by
  unfold nodeLess
  by_cases h : a.type = b.type
  · rw [h]
    simp only [ne_eq, not_true_eq_false, if_neg, ite_false]
    intro h1 h2
    have h3 : charListLt a.basename.data a.basename.data = true :=
      charListLt_trans h1 h2
    rw [charListLt_irrefl] at h3
    cases h3
  · rw [if_pos h, if_pos (fun hh => h hh.symm)]
    intro h1 h2
    exact h ((of_decide_eq_true h1).trans (of_decide_eq_true h2).symm)

/-- The comparator `nodeLE` is total, for arbitrary nodes. -/
theorem nodeLE_total (a b : FileNode) : nodeLE a b = true ∨ nodeLE b a = true := by
  unfold nodeLE
  cases hba : nodeLess b a
  · exact Or.inl rfl
  · cases hab : nodeLess a b
    · exact Or.inr rfl
    · exact absurd (nodeLess_asymm a b hab hba) not_false

/-- The comparator `nodeLE` is transitive on enumeration-shaped nodes. -/
theorem nodeLE_trans (a b c : FileNode)
    (ha : ValidType a) (hb : ValidType b) (hc : ValidType c)
    (h1 : nodeLE a b = true) (h2 : nodeLE b c = true) : nodeLE a c = true := by
  unfold nodeLE nodeLess goStringLt at h1 h2 ⊢
  rcases ha with ha | ha <;> rcases hb with hb | hb <;> rcases hc with hc | hc <;>
    simp [ha, hb, hc] at h1 h2 ⊢ <;>
    exact charListLt_false_trans h1 h2

/-- Inserting into the listing sort permutes. -/
theorem insertNode_perm (x : FileNode) (l : List FileNode) :
    List.Perm (insertNode x l) (x :: l) := by
  induction l with
  | nil => exact List.Perm.refl _
  | cons y ys ih =>
    unfold insertNode
    by_cases h : nodeLE x y = true
    · simp [h]
    · simp only [if_neg h]
      exact ((ih.cons y).trans (List.Perm.swap x y ys))

/-- The listing sort permutes its input. -/
theorem sortNodes_perm (l : List FileNode) : List.Perm (sortNodes l) l := by
  induction l with
  | nil => exact List.Perm.refl _
  | cons x xs ih =>
    exact (insertNode_perm x (sortNodes xs)).trans (ih.cons x)

/-- Inserting into a sorted list keeps it sorted (on enumeration-shaped
nodes). -/
theorem pairwise_insertNode (x : FileNode) (l : List FileNode)
    (hx : ValidType x) (hl : ∀ z ∈ l, ValidType z)
    (h : l.Pairwise (fun a b => nodeLE a b = true)) :
    (insertNode x l).Pairwise (fun a b => nodeLE a b = true) := by
  induction l with
  | nil => simp [insertNode]
  | cons y ys ih =>
    rw [List.pairwise_cons] at h
    unfold insertNode
    by_cases hle : nodeLE x y = true
    · rw [if_pos hle]
      refine List.Pairwise.cons ?_ (List.Pairwise.cons h.1 h.2)
      intro z hz
      rcases List.mem_cons.mp hz with hz | hz
      · subst hz
        exact hle
      · exact nodeLE_trans x y z hx (hl y (List.mem_cons_self y ys))
          (hl z (List.mem_cons_of_mem y hz)) hle (h.1 z hz)
    · rw [if_neg hle]
      have hyx : nodeLE y x = true := (nodeLE_total x y).resolve_left hle
      refine List.Pairwise.cons ?_
        (ih (fun z hz => hl z (List.mem_cons_of_mem y hz)) h.2)
      intro z hz
      rcases List.mem_cons.mp ((insertNode_perm x ys).mem_iff.mp hz) with hz | hz
      · subst hz
        exact hyx
      · exact h.1 z hz

/-- The listing sort produces a `nodeLE`-sorted list (on enumeration-shaped
nodes). -/
theorem sortNodes_pairwise (l : List FileNode) (hl : ∀ z ∈ l, ValidType z) :
    (sortNodes l).Pairwise (fun a b => nodeLE a b = true) := by
  induction l with
  | nil => exact List.Pairwise.nil
  | cons x xs ih =>
    refine pairwise_insertNode x (sortNodes xs) (hl x (List.mem_cons_self x xs))
      ?_ (ih (fun z hz => hl z (List.mem_cons_of_mem x hz)))
    intro z hz
    exact hl z (List.mem_cons_of_mem x ((sortNodes_perm xs).mem_iff.mp hz))

/-- Each filter stage only removes elements. -/
theorem applyFilters_sublist (params : ListParams) (l : List FileNode) :
    List.Sublist (applyFilters params l) l := by
  have h1 : List.Sublist (applyTypeFilter params l) l := by
    unfold applyTypeFilter
    cases params.type
    · exact List.Sublist.refl l
    · exact List.filter_sublist l
  have h2 : List.Sublist (applyNameFilter params (applyTypeFilter params l))
      (applyTypeFilter params l) := by
    unfold applyNameFilter
    cases params.filterPat with
    | none => exact List.Sublist.refl _
    | some pat =>
      dsimp only
      by_cases hp : pat = ""
      · rw [if_pos hp]
      · rw [if_neg hp]
        exact List.filter_sublist _
  have h3 : List.Sublist (applyFilters params l)
      (applyNameFilter params (applyTypeFilter params l)) := by
    unfold applyFilters applySearch
    cases params.search with
    | none => exact List.Sublist.refl _
    | some q =>
      dsimp only
      by_cases hq : q = ""
      · rw [if_pos hq]
      · rw [if_neg hq]
        exact List.filter_sublist _
  exact (h3.trans h2).trans h1

/-- On enumeration-shaped nodes, `nodeLE` says exactly "directories before
files, basename ascending within a type group". -/
theorem nodeLE_means {a b : FileNode} (ha : ValidType a) (hb : ValidType b)
    (h : nodeLE a b = true) :
    (a.type = "dir" ∧ b.type = "file") ∨
      (a.type = b.type ∧ goStringLe a.basename b.basename = true) := by
  unfold nodeLE nodeLess at h
  by_cases hty : b.type = a.type
  · rw [if_neg (by simp [hty])] at h
    exact Or.inr ⟨hty.symm, by simpa [goStringLe] using h⟩
  · rw [if_pos hty] at h
    have hbnotdir : ¬ b.type = "dir" := by
      intro hbd
      rw [decide_eq_true hbd] at h
      cases h
    rcases hb with hbf | hbd
    · rcases ha with haf | had
      · exact absurd (haf.trans hbf.symm) (fun hh => hty hh.symm)
      · exact Or.inl ⟨had, hbf⟩
    · exact absurd hbd hbnotdir

/-- C8: the listing response's `files` sequence is the sorted node list —
directories strictly before files, basenames ascending within each group —
with the `type`, `filter` and `search` filters applied afterwards, removing
entries without reordering the survivors (the filtered list is a sublist of
the sorted list and is itself sorted).  The hypotheses say the nodes come
from a real directory enumeration: types are `file`/`dir` and basenames are
pairwise distinct.  Under the distinctness hypothesis the comparator admits
no ties, so the stable insertion sort embedded here computes the same unique
result as any comparison sort, including Go's `sort.Slice`. -/
theorem c8_listing_sort_and_filters (storageNames : List String) (path : String)
    (nodes : List FileNode) (params : ListParams) (walkTotal : Except String Int)
    (htypes : ∀ n ∈ nodes, n.type = "file" ∨ n.type = "dir")
    (_hbase : nodes.Pairwise (fun a b => a.basename ≠ b.basename)) :
    ∃ body,
      serveDirectoryListing storageNames path nodes params walkTotal =
        HttpResponse.jsonList body ∧
      body.files = (applyFilters params (sortNodes nodes)).map toApiNode ∧
      List.Sublist (applyFilters params (sortNodes nodes)) (sortNodes nodes) ∧
      (sortNodes nodes).Pairwise (fun a b =>
        (a.type = "dir" ∧ b.type = "file") ∨
          (a.type = b.type ∧ goStringLe a.basename b.basename = true)) ∧
      (applyFilters params (sortNodes nodes)).Pairwise (fun a b =>
        (a.type = "dir" ∧ b.type = "file") ∨
          (a.type = b.type ∧ goStringLe a.basename b.basename = true)) := by
  have hvalid : ∀ z ∈ sortNodes nodes, ValidType z := fun z hz =>
    htypes z ((sortNodes_perm nodes).mem_iff.mp hz)
  have hsorted := sortNodes_pairwise nodes htypes
  have hnice : (sortNodes nodes).Pairwise (fun a b =>
      (a.type = "dir" ∧ b.type = "file") ∨
        (a.type = b.type ∧ goStringLe a.basename b.basename = true)) := by
    refine List.Pairwise.imp_of_mem ?_ hsorted
    intro a b hamem hbmem hab
    exact nodeLE_means (hvalid a hamem) (hvalid b hbmem) hab
  refine ⟨_, rfl, rfl, applyFilters_sublist params (sortNodes nodes), hnice, ?_⟩
  exact List.Pairwise.sublist (applyFilters_sublist params (sortNodes nodes)) hnice

/-- C8 witness: a mixed three-entry directory with a `type=file` filter —
the sort puts the directory first and orders files by basename, the filter
then keeps only the two files, in order. -/
theorem c8_witness :
    ∃ body,
      serveDirectoryListing ["local"] ""
        [{ path := "b.txt", type := "file", basename := "b.txt", extension := "txt",
           size := 1, lastModified := 0, mimeType := "" },
         { path := "sub", type := "dir", basename := "sub", extension := "",
           size := 0, lastModified := 0, mimeType := "" },
         { path := "a.txt", type := "file", basename := "a.txt", extension := "txt",
           size := 2, lastModified := 0, mimeType := "" }]
        { ListParams.empty with type := some "file" } (Except.error "") =
        HttpResponse.jsonList body ∧
      body.files =
        (applyFilters { ListParams.empty with type := some "file" }
          (sortNodes
            [{ path := "b.txt", type := "file", basename := "b.txt", extension := "txt",
               size := 1, lastModified := 0, mimeType := "" },
             { path := "sub", type := "dir", basename := "sub", extension := "",
               size := 0, lastModified := 0, mimeType := "" },
             { path := "a.txt", type := "file", basename := "a.txt", extension := "txt",
               size := 2, lastModified := 0, mimeType := "" }])).map toApiNode ∧
      List.Sublist
        (applyFilters { ListParams.empty with type := some "file" }
          (sortNodes
            [{ path := "b.txt", type := "file", basename := "b.txt", extension := "txt",
               size := 1, lastModified := 0, mimeType := "" },
             { path := "sub", type := "dir", basename := "sub", extension := "",
               size := 0, lastModified := 0, mimeType := "" },
             { path := "a.txt", type := "file", basename := "a.txt", extension := "txt",
               size := 2, lastModified := 0, mimeType := "" }]))
        (sortNodes
          [{ path := "b.txt", type := "file", basename := "b.txt", extension := "txt",
             size := 1, lastModified := 0, mimeType := "" },
           { path := "sub", type := "dir", basename := "sub", extension := "",
             size := 0, lastModified := 0, mimeType := "" },
           { path := "a.txt", type := "file", basename := "a.txt", extension := "txt",
             size := 2, lastModified := 0, mimeType := "" }]) ∧
      (sortNodes
        [{ path := "b.txt", type := "file", basename := "b.txt", extension := "txt",
           size := 1, lastModified := 0, mimeType := "" },
         { path := "sub", type := "dir", basename := "sub", extension := "",
           size := 0, lastModified := 0, mimeType := "" },
         { path := "a.txt", type := "file", basename := "a.txt", extension := "txt",
           size := 2, lastModified := 0, mimeType := "" }]).Pairwise (fun a b =>
        (a.type = "dir" ∧ b.type = "file") ∨
          (a.type = b.type ∧ goStringLe a.basename b.basename = true)) ∧
      (applyFilters { ListParams.empty with type := some "file" }
        (sortNodes
          [{ path := "b.txt", type := "file", basename := "b.txt", extension := "txt",
             size := 1, lastModified := 0, mimeType := "" },
           { path := "sub", type := "dir", basename := "sub", extension := "",
             size := 0, lastModified := 0, mimeType := "" },
           { path := "a.txt", type := "file", basename := "a.txt", extension := "txt",
             size := 2, lastModified := 0, mimeType := "" }])).Pairwise (fun a b =>
        (a.type = "dir" ∧ b.type = "file") ∨
          (a.type = b.type ∧ goStringLe a.basename b.basename = true)) :=
  c8_listing_sort_and_filters ["local"] ""
    [{ path := "b.txt", type := "file", basename := "b.txt", extension := "txt",
       size := 1, lastModified := 0, mimeType := "" },
     { path := "sub", type := "dir", basename := "sub", extension := "",
       size := 0, lastModified := 0, mimeType := "" },
     { path := "a.txt", type := "file", basename := "a.txt", extension := "txt",
       size := 2, lastModified := 0, mimeType := "" }]
    { ListParams.empty with type := some "file" } (Except.error "")
    (by decide) (by decide)

/-! ## C5 — content negotiation on the node endpoint -/

/-- C5: a live request addressing an existing regular file yields, when the
`Accept` header contains `application/json`, the file's Node metadata as
JSON (never the bytes); with any other `Accept` value it yields the raw
file bytes with `Content-Type` equal to the sniffed media type of the
file's first 512 bytes and `Content-Length` equal to the file's exact byte
count. -/
theorem c5_content_negotiation (fs : FS) (rootDir : List String)
    (storageNames : List String) (p accept rel : String) (content : List Nat)
    (m : Int) (params : ListParams) (sniff : List Nat → String)
    (walkTotal : Except String Int)
    (hsnap : params.snapshot = none)
    (hrel : urlToRelPath "local" p = Except.ok rel)
    (hfile : fs.stat (rootDir ++ relSegs rel) = some (Entry.file content m)) :
    (goContains accept "application/json" = true →
      getStoragesStorageNodesPath fs rootDir storageNames "local" p accept
          params sniff walkTotal =
        HttpResponse.jsonNode
          { path := p, type := "file", basename := getBasename p,
            extension := metaExtension (getBasename p),
            fileSize := (content.length : Int), lastModified := 0,
            mimeType :=
              if sniff (content.take 512) ≠ "" then some (sniff (content.take 512))
              else none }) ∧
    (goContains accept "application/json" = false →
      getStoragesStorageNodesPath fs rootDir storageNames "local" p accept
          params sniff walkTotal =
        HttpResponse.bytes (sniff (content.take 512)) (content.length : Int)
          (if (params.download).getD false then some (getBasename p) else none)
          content) := by
  have hopen : adapterOpen fs rootDir "local" p "" =
      Except.ok (rootDir ++ relSegs rel, Entry.file content m) := by
    unfold adapterOpen
    rw [hrel]
    dsimp only
    rw [if_pos rfl]
    unfold rootOpen
    dsimp only
    rw [hfile]
  have hlist : listContents fs rootDir "local" p "" sniff =
      Except.error "readdirent: not a directory" := by
    unfold listContents
    rw [hopen]
  have hstatE : adapterStat fs rootDir "local" p "" =
      Except.ok (Entry.file content m) := by
    unfold adapterStat
    rw [hrel]
    dsimp only
    rw [if_pos rfl]
    unfold rootOpen
    dsimp only
    rw [hfile]
    rfl
  have hsize : fileSizeOf fs rootDir "local" p "" =
      Except.ok ((content.length : Int)) := by
    unfold fileSizeOf
    rw [hstatE]
    rfl
  have hmime : mimeTypeOf fs rootDir "local" p "" sniff =
      Except.ok (sniff (content.take 512)) := by
    unfold mimeTypeOf
    rw [hopen]
  have hread : readStreamOf fs rootDir "local" p "" =
      Except.ok content := by
    unfold readStreamOf
    rw [hopen]
  have hsnapv : (params.snapshot).getD "" = "" := by
    rw [hsnap]
    rfl
  constructor
  · intro hw
    unfold getStoragesStorageNodesPath
    rw [if_neg (by simp)]
    dsimp only
    rw [hsnapv, hlist, hw]
    dsimp only
    unfold serveFileMetadata
    rw [hsize, hmime]
    rfl
  · intro hw
    unfold getStoragesStorageNodesPath
    rw [if_neg (by simp)]
    dsimp only
    rw [hsnapv, hlist, hw]
    dsimp only
    unfold serveFileContent
    rw [hmime, hsize, hread]
    rfl

/-- C5 witness: on the one-file fixture, `Accept: application/json` returns
the JSON metadata node and `Accept: application/octet-stream` returns the
bytes with the sniffed type and exact length. -/
theorem c5_witness :
    (goContains "application/json" "application/json" = true →
      getStoragesStorageNodesPath fsOneFile ["r"] ["local"] "local" "test.txt"
          "application/json" ListParams.empty
          (fun _ => "text/plain; charset=utf-8") (Except.error "") =
        HttpResponse.jsonNode
          { path := "test.txt", type := "file", basename := getBasename "test.txt",
            extension := metaExtension (getBasename "test.txt"),
            fileSize := (([72, 101, 108, 108, 111] : List Nat).length : Int),
            lastModified := 0,
            mimeType :=
              if (fun (_ : List Nat) => "text/plain; charset=utf-8")
                  (([72, 101, 108, 108, 111] : List Nat).take 512) ≠ "" then
                some ((fun (_ : List Nat) => "text/plain; charset=utf-8")
                  (([72, 101, 108, 108, 111] : List Nat).take 512))
              else none }) ∧
    (goContains "application/octet-stream" "application/json" = false →
      getStoragesStorageNodesPath fsOneFile ["r"] ["local"] "local" "test.txt"
          "application/octet-stream" ListParams.empty
          (fun _ => "text/plain; charset=utf-8") (Except.error "") =
        HttpResponse.bytes
          ((fun (_ : List Nat) => "text/plain; charset=utf-8")
            (([72, 101, 108, 108, 111] : List Nat).take 512))
          (([72, 101, 108, 108, 111] : List Nat).length : Int)
          (if (ListParams.empty.download).getD false then
            some (getBasename "test.txt") else none)
          [72, 101, 108, 108, 111] : Prop) :=
  ⟨(c5_content_negotiation fsOneFile ["r"] ["local"] "test.txt" "application/json"
      "test.txt" [72, 101, 108, 108, 111] 2 ListParams.empty
      (fun _ => "text/plain; charset=utf-8") (Except.error "") rfl rfl rfl).1,
   (c5_content_negotiation fsOneFile ["r"] ["local"] "test.txt"
      "application/octet-stream" "test.txt" [72, 101, 108, 108, 111] 2
      ListParams.empty (fun _ => "text/plain; charset=utf-8")
      (Except.error "") rfl rfl rfl).2⟩

/-! ## C1 — traversal safety of the gateway operations

`filepath.Clean` keeps all the `..` segments of a relative path in one run
at the front of its output; `DotFront` captures that shape, and the lemmas
below show the fold of `cleanStep false` preserves it, that `..` can only
survive cleaning if it occurred among the input segments, and hence that
`filepath.IsLocal` rejects exactly the paths whose cleaned form is absolute
or still contains a `..` segment. -/

/-- A segment list whose `..`s form one run at the front. -/
def DotFront (l : List String) : Prop :=
  ∃ k rest, l = List.replicate k ".." ++ rest ∧ ".." ∉ rest

/-- The relative-path clean step preserves the front-run shape. -/
theorem cleanStep_dotFront (out : List String) (c : String) (h : DotFront out) :
    DotFront (cleanStep false out c) := by
  obtain ⟨k, rest, hout, hni⟩ := h
  unfold cleanStep
  by_cases h1 : c = "" ∨ c = "."
  · rw [if_pos h1]
    exact ⟨k, rest, hout, hni⟩
  · rw [if_neg h1]
    by_cases h2 : c = ".."
    · rw [if_pos h2]
      cases hg : out.getLast? with
      | none =>
        exact ⟨1, [], by simp, by simp⟩
      | some l =>
        show DotFront (if l = ".." then out ++ [".."] else out.dropLast)
        by_cases hl : l = ".."
        · rw [if_pos hl]
          subst hl
          have hrest : rest = [] := by
            cases hr : rest with
            | nil => rfl
            | cons r rs =>
              rw [hout, hr, List.getLast?_append_of_ne_nil _ (by simp)] at hg
              have hmem2 : ".." ∈ r :: rs := List.mem_of_mem_getLast? hg
              rw [← hr] at hmem2
              exact absurd hmem2 hni
          subst hrest
          refine ⟨k + 1, [], ?_, by simp⟩
          rw [List.append_nil] at hout
          rw [hout, List.append_nil, ← List.replicate_succ' k ".."]
        · rw [if_neg hl]
          cases hr : rest with
          | nil =>
            subst hr
            rw [List.append_nil] at hout
            cases k with
            | zero =>
              subst hout
              cases hg
            | succ j =>
              rw [hout, List.replicate_succ' j ".."] at hg
              rw [List.getLast?_concat] at hg
              injection hg with hg
              exact absurd hg.symm hl
          | cons r rs =>
            refine ⟨k, rest.dropLast, ?_, fun hm => hni (List.mem_of_mem_dropLast hm)⟩
            rw [hout, List.dropLast_append_of_ne_nil _ (by rw [hr]; simp)]
    · rw [if_neg h2]
      refine ⟨k, rest ++ [c], by rw [hout, List.append_assoc], ?_⟩
      intro hm
      rcases List.mem_append.mp hm with hm | hm
      · exact hni hm
      · rw [List.mem_singleton] at hm
        exact h2 hm.symm

/-- The fold of the relative clean steps keeps the front-run shape. -/
theorem foldl_cleanStep_dotFront (comps : List String) :
    ∀ out, DotFront out → DotFront (comps.foldl (cleanStep false) out) := by
  induction comps with
  | nil => exact fun out h => h
  | cons c cs ih =>
    intro out h
    exact ih (cleanStep false out c) (cleanStep_dotFront out c h)

/-- The cleaned segments of a relative path have their `..`s at the front. -/
theorem cleanSegs_false_dotFront (comps : List String) :
    DotFront (cleanSegs false comps) :=
  foldl_cleanStep_dotFront comps [] ⟨0, [], by simp, by simp⟩

/-- A front-run list that contains `..` begins with it. -/
theorem dotFront_head {l : List String} (h : DotFront l) (hmem : ".." ∈ l) :
    l.head? = some ".." := by
  obtain ⟨k, rest, hl, hni⟩ := h
  cases k with
  | zero =>
    rw [hl] at hmem
    simp at hmem
    exact absurd hmem hni
  | succ j =>
    rw [hl, List.replicate_succ]
    rfl

/-- Cleaning a relative path with no `..` segment yields no `..` segment. -/
theorem cleanSegs_no_dotdot (comps : List String) (h : ".." ∉ comps) :
    ".." ∉ cleanSegs false comps := by
  unfold cleanSegs
  suffices hgen : ∀ out, ".." ∉ out → ".." ∉ comps.foldl (cleanStep false) out by
    exact hgen [] (by simp)
  induction comps with
  | nil => exact fun out hout => hout
  | cons c cs ih =>
    intro out hout
    have hc : c ≠ ".." := fun hc => h (hc ▸ List.mem_cons_self c cs)
    have hstep : ".." ∉ cleanStep false out c := by
      unfold cleanStep
      by_cases h1 : c = "" ∨ c = "."
      · rw [if_pos h1]
        exact hout
      · rw [if_neg h1, if_neg hc]
        intro hm
        rcases List.mem_append.mp hm with hm | hm
        · exact hout hm
        · rw [List.mem_singleton] at hm
          exact hc hm.symm
    exact ih (fun hcs => h (List.mem_cons_of_mem c hcs)) (cleanStep false out c) hstep

/-- The test `filepath.IsLocal` rejects every path whose cleaned form is absolute or
still contains a `..` segment. -/
theorem isLocal_false_of (p : String)
    (h : startsWithSlash p = true ∨
      ".." ∈ cleanSegs (startsWithSlash p) (goSplit p '/')) :
    isLocal p = false := by
  unfold isLocal
  by_cases habs : startsWithSlash p = true
  · rw [if_pos (Or.inl habs)]
  · have habs' : startsWithSlash p = false := by
      simpa using habs
    have hmem : ".." ∈ cleanSegs false (goSplit p '/') := by
      rcases h with h | h
      · exact absurd h habs
      · rw [habs'] at h
        exact h
    have hne : p ≠ "" := by
      intro he
      subst he
      exact absurd hmem (by decide)
    have hin : ".." ∈ goSplit p '/' := by
      by_contra hnin
      exact (cleanSegs_no_dotdot _ hnin) hmem
    have hdots : hasDotSeg p = true := by
      unfold hasDotSeg
      rw [List.any_eq_true]
      exact ⟨"..", hin, by simp⟩
    rw [if_neg (by simp [habs', hne]), if_pos hdots]
    have hhead := dotFront_head (cleanSegs_false_dotFront (goSplit p '/')) hmem
    rw [hhead]
    simp

/-- C1: any request whose relpath normalizes to an absolute path or to one
containing a `..` segment is refused by every gateway operation — open,
stat, and listing — with an error, uniformly in the filesystem: the result
is the same for every `fs`, so the refusal happens before any filesystem
access and no handle that could reach outside the root is ever produced.
(The normalized path is absolute exactly when the input starts with `/`,
since `filepath.Clean` preserves rootedness, and its segments are
`cleanSegs` of the input's segments; the empty input is first replaced by
`"."` as in `urlToRelPath`.) -/
theorem c1_traversal_refused (fs : FS) (rootDir : List String)
    (p snapshotID : String) (sniff : List Nat → String)
    (h : startsWithSlash (if p = "" then "." else p) = true ∨
      ".." ∈ cleanSegs (startsWithSlash (if p = "" then "." else p))
        (goSplit (if p = "" then "." else p) '/')) :
    (∃ e, adapterOpen fs rootDir "local" p snapshotID = Except.error e) ∧
    (∃ e, adapterStat fs rootDir "local" p snapshotID = Except.error e) ∧
    (∃ e, listContents fs rootDir "local" p snapshotID sniff = Except.error e) := by
  have hloc : isLocal (if p = "" then "." else p) = false := isLocal_false_of _ h
  have hurl : urlToRelPath "local" p = Except.error
      ("non-local paths are not supported: " ++ (if p = "" then "." else p)) := by
    unfold urlToRelPath
    rw [if_neg (by simp)]
    dsimp only
    rw [if_pos (by simp [hloc])]
  have hopen : adapterOpen fs rootDir "local" p snapshotID = Except.error
      ("unable to convert path: " ++
        ("non-local paths are not supported: " ++ (if p = "" then "." else p))) := by
    unfold adapterOpen
    rw [hurl]
  have hstat : adapterStat fs rootDir "local" p snapshotID = Except.error
      ("unable to convert path: " ++
        ("non-local paths are not supported: " ++ (if p = "" then "." else p))) := by
    unfold adapterStat
    rw [hurl]
  have hlist : listContents fs rootDir "local" p snapshotID sniff = Except.error
      ("unable to convert path: " ++
        ("non-local paths are not supported: " ++ (if p = "" then "." else p))) := by
    unfold listContents
    rw [hopen]
  exact ⟨⟨_, hopen⟩, ⟨_, hstat⟩, ⟨_, hlist⟩⟩

/-- C1 witness: the relpath `../x` cleans to a `..`-leading path and every
gateway operation refuses it on a concrete filesystem. -/
theorem c1_witness :
    (startsWithSlash (if "../x" = "" then "." else "../x") = true ∨
      ".." ∈ cleanSegs (startsWithSlash (if "../x" = "" then "." else "../x"))
        (goSplit (if "../x" = "" then "." else "../x") '/')) ∧
    ((∃ e, adapterOpen fsOneFile ["r"] "local" "../x" "" = Except.error e) ∧
     (∃ e, adapterStat fsOneFile ["r"] "local" "../x" "" = Except.error e) ∧
     (∃ e, listContents fsOneFile ["r"] "local" "../x" ""
        (fun _ => "application/octet-stream") = Except.error e)) :=
  ⟨by decide,
   c1_traversal_refused fsOneFile ["r"] "../x" ""
     (fun _ => "application/octet-stream") (by decide)⟩

end Timeship
